import Mathlib

/-!
Verification of the real-time message synchronization hook (`useMessages`)
of the Whisper chat client.  The hook keeps a per-conversation message list
in React state; every mutation below is a pure function from the previous
list (plus the environment outcomes: socket connectivity, HTTP result,
development mode) to the next list, mirroring the `setMessages` updater
functions of the source.  Timestamps are modelled as natural numbers
(epoch milliseconds: the source compares `new Date(a.timestamp) -
new Date(b.timestamp)`), ids and conversation ids as strings.
-/

namespace Whisper

/-- Message delivery status (the `status` field of a message). -/
inductive MsgStatus where
  | sending
  | sent
  | delivered
  | seen
  | failed
deriving DecidableEq, BEq, Repr

/-- A chat message as held in the hook's `messages` state.  The source's
`sender` object is reduced to its `id` field (`senderId`), the only part the
synchronization logic reads. -/
structure Msg where
  id : String
  chatId : String
  content : String
  timestamp : Nat
  senderId : String
  read : Bool
  status : MsgStatus
deriving DecidableEq, BEq, Repr

/-- A JavaScript value passed as the `content` argument of `sendMessage`:
a string, `null`, or any other non-string value (collapsed into one
constructor; whether such a value is truthy or falsy, the source's guard
rejects it the same way, via `!content` or via the `typeof` check). -/
inductive JSVal where
  | str (s : String)
  | nullv
  | other
deriving DecidableEq, BEq, Repr

/-- JavaScript whitespace as far as chat content is concerned (space, tab,
newline, carriage return). -/
def isWsChar (c : Char) : Bool :=
  c == ' ' || c == '\t' || c == '\n' || c == '\r'

/-- `String.prototype.trim`: strip leading and trailing whitespace. -/
def trimChars (s : String) : String :=
  String.mk (((s.data.dropWhile isWsChar).reverse.dropWhile isWsChar).reverse)

/-- The guard of `sendMessage`:
`!content || typeof content !== 'string' || !content.trim()` rejects the
value.  `jsContentOk v = true` exactly when the guard lets `v` through. -/
def jsContentOk : JSVal → Bool
  | .str s => !(trimChars s == "")
  | _ => false

/-- The string carried by a `JSVal`, empty for non-strings (only ever read
after `jsContentOk` has accepted the value). -/
def jsStrVal : JSVal → String
  | .str s => s
  | _ => ""

/-- One step of the stable insertion modelling the JavaScript stable
`Array.prototype.sort` with comparator on timestamps: the new element goes
after every already-placed element of smaller-or-equal timestamp. -/
def insertByTs (m : Msg) : List Msg → List Msg
  | [] => [m]
  | x :: xs => if x.timestamp ≤ m.timestamp then x :: insertByTs m xs else m :: x :: xs

/-- `list.sort((a, b) => new Date(a.timestamp) - new Date(b.timestamp))`:
stable sort by non-decreasing timestamp. -/
def sortByTs (l : List Msg) : List Msg :=
  l.foldl (fun acc m => insertByTs m acc) []

/-- The ordering invariant of the message list: non-decreasing timestamps. -/
def TsSorted (l : List Msg) : Prop :=
  l.Pairwise (fun a b => a.timestamp ≤ b.timestamp)

/-- The uniqueness invariant of the message list: no two entries share an id. -/
def NodupIds (l : List Msg) : Prop :=
  (l.map Msg.id).Nodup

instance : LawfulBEq MsgStatus where
  eq_of_beq := by intro a b h; cases a <;> cases b <;> first | rfl | cases h
  rfl := by intro a; cases a <;> rfl

instance : DecidablePred TsSorted := fun l =>
  List.instDecidablePairwise l

instance : DecidablePred NodupIds := fun l =>
  inferInstanceAs (Decidable (l.map Msg.id).Nodup)

/-- One `messageMap.set(msg.id, msg)` step of the non-reset `loadMessages`
merge: a JavaScript `Map` keeps the key at its first-insertion position and
overwrites the value, so a later message with an already-present id replaces
the earlier one in place, and a fresh id is appended. -/
def mapSet (acc : List Msg) (m : Msg) : List Msg :=
  if acc.any (fun x => x.id == m.id) then
    acc.map (fun x => if x.id == m.id then m else x)
  else acc ++ [m]

/-- `Array.from(messageMap.values())` after `allMessages.forEach(msg =>
messageMap.set(msg.id, msg))`: deduplication by id, last value wins, keys in
first-insertion order. -/
def dedupeById (l : List Msg) : List Msg :=
  l.foldl mapSet []

/-- The `socket.on('newMessage')` handler: an event for another conversation
(or received while no conversation id is attached) is dropped; an event whose
id is already present is dropped; otherwise the message is appended and the
list re-sorted by timestamp. -/
def newMessageMerge (attachedChatId : Option String) (ev : Msg)
    (prev : List Msg) : List Msg :=
  match attachedChatId with
  | none => prev
  | some cid =>
    if ev.chatId == cid then
      if prev.any (fun msg => msg.id == ev.id) then prev
      else sortByTs (prev ++ [ev])
    else prev

/-- The `socket.on('messageUpdated')` handler: for an event of the attached
conversation, the entry with the event's id is replaced in place. -/
def messageUpdatedMerge (attachedChatId : Option String) (ev : Msg)
    (prev : List Msg) : List Msg :=
  match attachedChatId with
  | none => prev
  | some cid =>
    if ev.chatId == cid then
      prev.map (fun msg => if msg.id == ev.id then ev else msg)
    else prev

/-- Payload of a `messageDeleted` transport event.  The event names the
conversation it belongs to, but the source handler destructures only
`messageId` and never reads the event's conversation id. -/
structure DeleteEvent where
  chatId : String
  messageId : String
deriving DecidableEq, BEq, Repr

/-- The `socket.on('messageDeleted')` handler: it checks only that some
conversation id is attached (`chatIdRef.current` truthy) and then filters the
event's `messageId` out of the list, ignoring `ev.chatId`. -/
def messageDeletedMerge (attachedChatId : Option String) (ev : DeleteEvent)
    (prev : List Msg) : List Msg :=
  match attachedChatId with
  | none => prev
  | some _ => prev.filter (fun msg => !(msg.id == ev.messageId))

/-- The non-reset branch of the `loadMessages` state update: the fetched page
(already sorted by the caller) is prepended to the previous list, the
concatenation is deduplicated through a `Map` keyed by id, and the result is
re-sorted by timestamp. -/
def loadMergeMessages (fetchedSorted : List Msg) (prev : List Msg) :
    List Msg :=
  sortByTs (dedupeById (fetchedSorted ++ prev))

/-- A merge-type mutation of the message list: a `newMessage` transport event
or a non-reset `loadMessages` pagination merge. -/
inductive MergeOp where
  | push (ev : Msg)
  | page (fetched : List Msg)

/-- Apply one merge operation, as the source handlers do (`loadMessages`
sorts the fetched page before merging it). -/
def applyMergeOp (attachedChatId : Option String) (st : List Msg) :
    MergeOp → List Msg
  | .push ev => newMessageMerge attachedChatId ev st
  | .page fetched => loadMergeMessages (sortByTs fetched) st

/-- Apply a sequence of merge operations in order. -/
def applyMergeOps (attachedChatId : Option String) (st : List Msg)
    (ops : List MergeOp) : List Msg :=
  ops.foldl (applyMergeOp attachedChatId) st

/-- The hook state touched by `loadMessages`: the message list, the
`loading` and `hasMore` flags, the pagination cursor `oldestMessageId`, plus
a counter of network fetches issued (each `fetch` of the history endpoint
increments it once). -/
structure HookState where
  messages : List Msg
  loading : Bool
  hasMore : Bool
  oldestMessageId : Option String
  fetchesStarted : Nat
deriving DecidableEq, Repr

/-- The synchronous prefix of `loadMessages` up to and including issuing the
network fetch: the only guard is `if (!chatId) return;` — then
`setLoading(true)` runs and the fetch is issued.  Nothing reads or checks
the `loading` flag. -/
def loadMessagesStart (s : HookState) (chatId : Option String) : HookState :=
  match chatId with
  | none => s
  | some _ => { s with loading := true, fetchesStarted := s.fetchesStarted + 1 }

/-- The continuation of `loadMessages` once the fetch has produced a page
`fetched`: sort the page, take the head id as the new pagination cursor,
seed (reset) or merge (non-reset) the list, set
`hasMore = (fetched.length >= limit)`, and clear `loading`. -/
def loadMessagesResolve (s : HookState) (lim : Nat) (reset : Bool)
    (fetched : List Msg) : HookState :=
  let sorted := sortByTs fetched
  let oldest := sorted.head?.map Msg.id
  let newMessages :=
    if reset then sorted else loadMergeMessages sorted s.messages
  { s with
    messages := newMessages
    oldestMessageId := oldest
    hasMore := decide (lim ≤ fetched.length)
    loading := false }

/-- A whole successful `loadMessages(reset)` call: guard on `chatId`, issue
the fetch, then apply the response. -/
def loadMessagesRun (s : HookState) (chatId : Option String) (lim : Nat)
    (reset : Bool) (fetched : List Msg) : HookState :=
  match chatId with
  | none => s
  | some cid => loadMessagesResolve (loadMessagesStart s (some cid)) lim reset fetched

/-- `loadMoreMessages` is exactly `loadMessages(false)`; this is its
synchronous prefix (the part that decides whether a network fetch happens). -/
def loadMoreMessagesStart (s : HookState) (chatId : Option String) : HookState :=
  loadMessagesStart s chatId

/-- Result of a `sendMessage` call: the returned value (`null` on failure)
and the message list once the call has completed. -/
structure SendOutcome where
  ret : Option Msg
  messages : List Msg
deriving DecidableEq, Repr

/-- The optimistic message `sendMessage` inserts before attempting delivery:
provisional id, trimmed content, client timestamp, status `sending`. -/
def provisionalMsg (cid : String) (content : JSVal) (provId : String)
    (nowTs : Nat) (senderId : String) : Msg :=
  { id := provId, chatId := cid, content := trimChars (jsStrVal content),
    timestamp := nowTs, senderId := senderId, read := false,
    status := .sending }

/-- The source's recurring status updater,
`prev.map(msg => msg.id === messageId ? { ...msg, status } : msg)`. -/
def setStatusById (messageId : String) (stt : MsgStatus) (l : List Msg) :
    List Msg :=
  l.map (fun msg =>
    if msg.id == messageId then { msg with status := stt } else msg)

/-- A complete `sendMessage(content)` call.  Parameters stand for the
ambient environment: `provId` is the client-generated provisional id
(`` `m${Date.now()}` `` in the source), `nowTs` the client clock,
`socketConnected` the transport flag read at send time, `apiResult` the
request/response outcome (`some serverMessage` when the POST succeeded and
returned `data.message`, `none` on any HTTP failure), and `isDevelopment`
the localhost fallback flag.  The development-mode simulated echo that the
source schedules 2–5 seconds later under `setTimeout` is a separate future
event with a fresh id and is not part of the completed call modelled here. -/
def sendMessageRun (st : List Msg) (chatId : Option String) (content : JSVal)
    (provId : String) (nowTs : Nat) (senderId : String)
    (socketConnected : Bool) (apiResult : Option Msg)
    (isDevelopment : Bool) : SendOutcome :=
  match chatId with
  | none => ⟨none, st⟩
  | some cid =>
    if jsContentOk content then
      let newMessage : Msg := provisionalMsg cid content provId nowTs senderId
      let optimistic := st ++ [newMessage]
      let sentViaSocket := socketConnected
      match apiResult with
      | some serverMessage =>
        ⟨some { serverMessage with status := .sent },
          optimistic.map (fun msg =>
            if msg.id == provId then { serverMessage with status := .sent }
            else msg)⟩
      | none =>
        if sentViaSocket || isDevelopment then
          ⟨some { newMessage with status := .sent },
            setStatusById provId .sent optimistic⟩
        else
          ⟨none, setStatusById provId .failed optimistic⟩
    else ⟨none, st⟩

/-- Result of a `retryMessage` call: the boolean return value, the list
right after the first state update (status back to `sending`), and the list
once the call has completed. -/
structure RetryOutcome where
  ret : Bool
  interim : List Msg
  messages : List Msg
deriving DecidableEq, Repr

/-- A complete `retryMessage(messageId)` call.  The source looks up a
message with the given id in status `failed`; if found, it flips it to
`sending`, attempts the socket emit (success whenever the socket is
connected) and the HTTP POST; on HTTP success it only reads `response.ok`
(`apiResult`'s payload is never parsed), and in development mode a total
failure is simulated into a success.  The final update sets the same id to
`sent` on success or back to `failed` otherwise. -/
def retryMessageRun (st : List Msg) (chatId : Option String)
    (messageId : String) (socketConnected : Bool) (apiResult : Option Msg)
    (isDevelopment : Bool) : RetryOutcome :=
  match chatId with
  | none => ⟨false, st, st⟩
  | some _ =>
    match st.find? (fun msg => msg.id == messageId && msg.status == .failed) with
    | none => ⟨false, st, st⟩
    | some _failedMessage =>
      let interim := setStatusById messageId .sending st
      let success0 := socketConnected
      let success1 :=
        match apiResult with
        | some _ => true
        | none => if !success0 && isDevelopment then true else success0
      if success1 then
        ⟨true, interim, setStatusById messageId .sent interim⟩
      else
        ⟨false, interim, setStatusById messageId .failed interim⟩

/-- A complete `deleteMessage(messageId)` call: the entry is filtered out of
the list immediately (optimistic removal); the socket emit counts as deleted
when the socket is connected; then the HTTP DELETE is attempted; a total
failure is simulated into a success only in development mode.  The filtered
list is never restored inside the call (the `loadMessages(true)` restore sits
in a catch-all for unexpected exceptions, which the per-channel handlers make
unreachable), so the call returns the success flag and the filtered list. -/
def deleteMessageRun (st : List Msg) (chatId : Option String)
    (messageId : String) (socketConnected : Bool) (apiOk : Bool)
    (isDevelopment : Bool) : Bool × List Msg :=
  match chatId with
  | none => (false, st)
  | some _ =>
    let filtered := st.filter (fun msg => !(msg.id == messageId))
    let deleted0 := socketConnected
    let deleted1 :=
      if apiOk then true
      else if !deleted0 && isDevelopment then true else deleted0
    (deleted1, filtered)

/-- Fixed quiet period of the typing debounce: the source schedules the
`stopTyping` emit with `setTimeout(..., 3000)`. -/
def typingStopDelayMs : Nat := 3000

/-- Timer bookkeeping around `sendTypingStatus`: `typingTimer` models the
`typingTimeoutRef` handle, `activeStopTimers` the pending `stopTyping`
timeouts as (timer id, fire time) pairs, and `typingEmits` counts the
`typing` events emitted through the socket. -/
structure TypingState where
  typingTimer : Option Nat
  activeStopTimers : List (Nat × Nat)
  typingEmits : Nat
deriving DecidableEq, Repr

/-- A `sendTypingStatus()` call at clock time `now`: guard on `chatId`; emit
`typing` when the socket is connected; `clearTimeout` the timer currently in
`typingTimeoutRef` (removing it from the pending set); then schedule a fresh
`stopTyping` timeout `typingStopDelayMs` later and store its handle in the
ref. -/
def sendTypingStatusRun (s : TypingState) (chatId : Option String)
    (socketConnected : Bool) (freshTimerId : Nat) (now : Nat) : TypingState :=
  match chatId with
  | none => s
  | some _ =>
    let emits := if socketConnected then s.typingEmits + 1 else s.typingEmits
    let cleared :=
      match s.typingTimer with
      | some t => s.activeStopTimers.filter (fun p => !(p.1 == t))
      | none => s.activeStopTimers
    { typingTimer := some freshTimerId
      activeStopTimers := cleared ++ [(freshTimerId, now + typingStopDelayMs)]
      typingEmits := emits }

/-- The timer invariant maintained by the hook: the pending `stopTyping`
timeouts are exactly the one held in `typingTimeoutRef`, if any. -/
def TimerInv (s : TypingState) : Prop :=
  match s.typingTimer with
  | none => s.activeStopTimers = []
  | some t => ∃ fireAt, s.activeStopTimers = [(t, fireAt)]

/-- Sample message, used to instantiate witnesses on concrete inputs. -/
def mA : Msg :=
  { id := "m1", chatId := "c1", content := "hello", timestamp := 100,
    senderId := "u1", read := true, status := .sent }

/-- Sample message, used to instantiate witnesses on concrete inputs. -/
def mB : Msg :=
  { id := "m2", chatId := "c1", content := "hi", timestamp := 200,
    senderId := "u2", read := true, status := .sent }

/-- Sample message, used to instantiate witnesses on concrete inputs. -/
def mC : Msg :=
  { id := "m3", chatId := "c1", content := "news", timestamp := 300,
    senderId := "u2", read := false, status := .sent }

/-- Sample message, used to instantiate witnesses on concrete inputs. -/
def mD : Msg :=
  { id := "m4", chatId := "c1", content := "old", timestamp := 50,
    senderId := "u2", read := true, status := .sent }

/-- The concrete list behind the C4 counterexample: the attached
conversation `c1` holds a single message with id `x`. -/
def delPrev : List Msg :=
  [{ id := "x", chatId := "c1", content := "keep me", timestamp := 10,
     senderId := "u2", read := true, status := .sent }]

/-- A sample server-confirmed message, as returned by the send endpoint. -/
def srvMsg : Msg :=
  { id := "srv1", chatId := "c1", content := "hello there", timestamp := 400,
    senderId := "u1", read := false, status := .sent }

/-- A sample idle hook state (nothing loaded, no fetch in flight). -/
def loadS0 : HookState :=
  { messages := [], loading := false, hasMore := true,
    oldestMessageId := none, fetchesStarted := 0 }

theorem insertByTs_perm (m : Msg) (l : List Msg) :
    List.Perm (insertByTs m l) (m :: l) := by
  induction l with
  | nil => rfl
  | cons x xs ih =>
    by_cases h : x.timestamp ≤ m.timestamp
    · simp only [insertByTs, if_pos h]
      exact (ih.cons x).trans (List.Perm.swap m x xs)
    · simp [insertByTs, if_neg h]

theorem mem_insertByTs {a m : Msg} {l : List Msg} :
    a ∈ insertByTs m l ↔ a = m ∨ a ∈ l := by
  rw [(insertByTs_perm m l).mem_iff, List.mem_cons]

theorem insertByTs_sorted {l : List Msg} (m : Msg) (h : TsSorted l) :
    TsSorted (insertByTs m l) := by
  induction l with
  | nil => simp [insertByTs, TsSorted]
  | cons x xs ih =>
    rcases (List.pairwise_cons.mp h) with ⟨hx, hxs⟩
    by_cases hc : x.timestamp ≤ m.timestamp
    · simp only [insertByTs, if_pos hc]
      refine List.pairwise_cons.mpr ⟨?_, ih hxs⟩
      intro b hb
      rcases mem_insertByTs.mp hb with rfl | hb
      · exact hc
      · exact hx b hb
    · simp only [insertByTs, if_neg hc]
      have hmx : m.timestamp ≤ x.timestamp := le_of_lt (lt_of_not_le hc)
      refine List.pairwise_cons.mpr ⟨?_, h⟩
      intro b hb
      rcases List.mem_cons.mp hb with rfl | hb
      · exact hmx
      · exact le_trans hmx (hx b hb)

theorem foldl_insertByTs_perm (l : List Msg) :
    ∀ acc : List Msg,
      List.Perm (l.foldl (fun acc m => insertByTs m acc) acc) (acc ++ l) := by
  induction l with
  | nil => intro acc; simp
  | cons x xs ih =>
    intro acc
    have h1 := ih (insertByTs x acc)
    have h2 : List.Perm (insertByTs x acc ++ xs) ((x :: acc) ++ xs) :=
      (insertByTs_perm x acc).append_right xs
    have h3 : List.Perm ((x :: acc) ++ xs) (acc ++ x :: xs) := List.perm_middle.symm
    exact h1.trans (h2.trans h3)

theorem foldl_insertByTs_sorted (l : List Msg) :
    ∀ acc : List Msg, TsSorted acc →
      TsSorted (l.foldl (fun acc m => insertByTs m acc) acc) := by
  induction l with
  | nil => intro acc h; exact h
  | cons x xs ih =>
    intro acc h
    exact ih (insertByTs x acc) (insertByTs_sorted x h)

theorem sortByTs_perm (l : List Msg) : List.Perm (sortByTs l) l := by
  have h := foldl_insertByTs_perm l []
  simpa [sortByTs] using h

theorem sortByTs_sorted (l : List Msg) : TsSorted (sortByTs l) :=
  foldl_insertByTs_sorted l [] (by simp [TsSorted])

theorem sortByTs_nodupIds {l : List Msg} (h : NodupIds l) :
    NodupIds (sortByTs l) :=
  (((sortByTs_perm l).map Msg.id).nodup_iff).mpr h

theorem mem_sortByTs {a : Msg} {l : List Msg} :
    a ∈ sortByTs l ↔ a ∈ l :=
  (sortByTs_perm l).mem_iff

theorem mapSet_nodupIds {acc : List Msg} (m : Msg) (h : NodupIds acc) :
    NodupIds (mapSet acc m) := by
  by_cases hmem : acc.any (fun x => x.id == m.id)
  · have hids : (acc.map (fun x => if x.id == m.id then m else x)).map Msg.id
        = acc.map Msg.id := by
      rw [List.map_map]
      refine List.map_congr_left ?_
      intro x _
      by_cases hx : x.id == m.id
      · simp only [Function.comp_apply, if_pos hx]
        exact (eq_of_beq hx).symm
      · simp [Function.comp, hx]
    simp only [mapSet, if_pos hmem, NodupIds, hids]
    exact h
  · have hnot : m.id ∉ acc.map Msg.id := by
      intro hc
      rcases List.mem_map.mp hc with ⟨x, hx, hxid⟩
      exact hmem (List.any_eq_true.mpr ⟨x, hx, by simp [hxid]⟩)
    simp only [mapSet, if_neg hmem, NodupIds, List.map_append, List.map_cons,
      List.map_nil]
    exact List.Nodup.append h (List.nodup_singleton _)
      (by simpa [List.disjoint_singleton] using hnot)

theorem foldl_mapSet_nodupIds (l : List Msg) :
    ∀ acc : List Msg, NodupIds acc → NodupIds (l.foldl mapSet acc) := by
  induction l with
  | nil => intro acc h; exact h
  | cons x xs ih => intro acc h; exact ih (mapSet acc x) (mapSet_nodupIds x h)

theorem dedupeById_nodupIds (l : List Msg) : NodupIds (dedupeById l) :=
  foldl_mapSet_nodupIds l [] (by simp [NodupIds])

theorem newMessageMerge_invariant (attachedChatId : Option String) (ev : Msg)
    {prev : List Msg} (hN : NodupIds prev) (hS : TsSorted prev) :
    NodupIds (newMessageMerge attachedChatId ev prev) ∧
      TsSorted (newMessageMerge attachedChatId ev prev) := by
  match attachedChatId with
  | none => exact ⟨hN, hS⟩
  | some cid =>
    by_cases hc : ev.chatId == cid
    · by_cases hdup : prev.any (fun msg => msg.id == ev.id)
      · simp only [newMessageMerge, if_pos hc, if_pos hdup]
        exact ⟨hN, hS⟩
      · have hfresh : ev.id ∉ prev.map Msg.id := by
          intro hmem
          rcases List.mem_map.mp hmem with ⟨x, hx, hxid⟩
          exact hdup (List.any_eq_true.mpr ⟨x, hx, by simp [hxid]⟩)
        have hNodup : NodupIds (prev ++ [ev]) := by
          simp only [NodupIds, List.map_append, List.map_cons, List.map_nil]
          exact List.Nodup.append hN (List.nodup_singleton _)
            (by simpa [List.disjoint_singleton] using hfresh)
        simp only [newMessageMerge, if_pos hc, if_neg hdup]
        exact ⟨sortByTs_nodupIds hNodup, sortByTs_sorted _⟩
    · simp only [newMessageMerge, if_neg hc]
      exact ⟨hN, hS⟩

theorem loadMergeMessages_invariant (fetchedSorted prev : List Msg) :
    NodupIds (loadMergeMessages fetchedSorted prev) ∧
      TsSorted (loadMergeMessages fetchedSorted prev) :=
  ⟨sortByTs_nodupIds (dedupeById_nodupIds _), sortByTs_sorted _⟩

/-- C2: every sequence of `newMessage`-event merges and non-reset
`loadMessages` pagination merges applied to a message list with unique ids
and non-decreasing timestamps yields a list with no duplicate ids that is
still sorted by non-decreasing timestamp. -/
theorem mergeOps_preserve_invariants (attachedChatId : Option String)
    (ops : List MergeOp) (st : List Msg)
    (hN : NodupIds st) (hS : TsSorted st) :
    NodupIds (applyMergeOps attachedChatId st ops) ∧
      TsSorted (applyMergeOps attachedChatId st ops) := by
  induction ops generalizing st with
  | nil => exact ⟨hN, hS⟩
  | cons op rest ih =>
    have hstep : NodupIds (applyMergeOp attachedChatId st op) ∧
        TsSorted (applyMergeOp attachedChatId st op) := by
      cases op with
      | push ev => exact newMessageMerge_invariant attachedChatId ev hN hS
      | page fetched => exact loadMergeMessages_invariant _ _
    exact ih (applyMergeOp attachedChatId st op) hstep.1 hstep.2

/-- Witness for C2 at a concrete state and operation sequence, with a page
that repeats an id the list has already seen. -/
theorem mergeOps_preserve_invariants_witness :
    (NodupIds [mA, mB] ∧ TsSorted [mA, mB]) ∧
      (NodupIds (applyMergeOps (some "c1") [mA, mB]
          [MergeOp.push mC, MergeOp.page [mB, mD]]) ∧
        TsSorted (applyMergeOps (some "c1") [mA, mB]
          [MergeOp.push mC, MergeOp.page [mB, mD]])) :=
  ⟨⟨by decide, by decide⟩,
    mergeOps_preserve_invariants (some "c1")
      [MergeOp.push mC, MergeOp.page [mB, mD]] [mA, mB]
      (by decide) (by decide)⟩

/-- C4 counterexample: a `messageDeleted` event whose conversation id `c2`
differs from the attached conversation `c1` still removes a matching message
from the list (the handler never reads the event's conversation id), so the
list does not stay unchanged as the claim requires. -/
theorem messageDeleted_cross_conversation_counterexample :
    messageDeletedMerge (some "c1") ⟨"c2", "x"⟩ delPrev ≠ delPrev := by
  decide

/-- C4 amended: inbound `newMessage` and `messageUpdated` events for a
conversation other than the attached one leave the message list unchanged;
a `messageDeleted` event, however, is filtered only on its `messageId` —
whenever some conversation is attached it removes any entry with that id,
regardless of the event's conversation id. -/
theorem inbound_cross_conversation_events (cid : String) (ev evU : Msg)
    (dev : DeleteEvent) (prev : List Msg)
    (h1 : ev.chatId ≠ cid) (h2 : evU.chatId ≠ cid) :
    newMessageMerge (some cid) ev prev = prev ∧
      messageUpdatedMerge (some cid) evU prev = prev ∧
      messageDeletedMerge (some cid) dev prev
        = prev.filter (fun msg => !(msg.id == dev.messageId)) := by
  have hb1 : (ev.chatId == cid) = false := by simp [h1]
  have hb2 : (evU.chatId == cid) = false := by simp [h2]
  refine ⟨?_, ?_, rfl⟩
  · simp [newMessageMerge, hb1]
  · simp [messageUpdatedMerge, hb2]

/-- Witness for C4's amended statement at a concrete cross-conversation
event. -/
theorem inbound_cross_conversation_events_witness :
    ({ mC with chatId := "c9" } : Msg).chatId ≠ "c1" ∧
      newMessageMerge (some "c1") { mC with chatId := "c9" } delPrev = delPrev ∧
      messageUpdatedMerge (some "c1") { mC with chatId := "c9" } delPrev = delPrev ∧
      messageDeletedMerge (some "c1") ⟨"c9", "nope"⟩ delPrev
        = delPrev.filter (fun msg => !(msg.id == "nope")) := by
  have h : ({ mC with chatId := "c9" } : Msg).chatId ≠ "c1" := by decide
  have hmain := inbound_cross_conversation_events "c1"
    { mC with chatId := "c9" } { mC with chatId := "c9" }
    ⟨"c9", "nope"⟩ delPrev h h
  exact ⟨h, hmain.1, hmain.2.1, hmain.2.2⟩

theorem map_g_append (l : List Msg) (m : Msg) (g : Msg → Msg)
    (h : ∀ x ∈ l, g x = x) :
    (l ++ [m]).map g = l ++ [g m] := by
  rw [List.map_append]
  congr 1
  have hcongr : l.map g = l.map (fun x => x) := List.map_congr_left h
  simpa using hcongr

theorem map_g_ids (l : List Msg) (g : Msg → Msg)
    (hg : ∀ x, (g x).id = x.id) :
    (l.map g).map Msg.id = l.map Msg.id := by
  rw [List.map_map]
  refine List.map_congr_left ?_
  intro x _
  exact hg x

theorem map_g_status_mem (l : List Msg) (g : Msg → Msg) (pid : String)
    (stt : MsgStatus) (hgid : ∀ x, (g x).id = x.id)
    (hgs : ∀ x, x.id = pid → (g x).status = stt) :
    ∀ m ∈ l.map g, m.id = pid → m.status = stt := by
  intro m hm hid
  rcases List.mem_map.mp hm with ⟨x, hx, hmx⟩
  subst hmx
  exact hgs x (by rw [← hgid x]; exact hid)

theorem setStatusById_append (st : List Msg) (fm : Msg) (pid : String)
    (stt : MsgStatus) (hprov : ∀ x ∈ st, x.id ≠ pid) (hfm : fm.id = pid) :
    setStatusById pid stt (st ++ [fm])
      = st ++ [({ fm with status := stt } : Msg)] := by
  unfold setStatusById
  rw [map_g_append st fm _ (fun x hx => by simp [hprov x hx])]
  simp [hfm]

theorem setStatusById_ids (pid : String) (stt : MsgStatus) (l : List Msg) :
    (setStatusById pid stt l).map Msg.id = l.map Msg.id := by
  unfold setStatusById
  refine map_g_ids l _ ?_
  intro x
  by_cases hx : (x.id == pid) = true <;> simp [hx]

theorem setStatusById_status_mem (pid : String) (stt : MsgStatus)
    (l : List Msg) :
    ∀ m ∈ setStatusById pid stt l, m.id = pid → m.status = stt := by
  unfold setStatusById
  refine map_g_status_mem l _ pid stt ?_ ?_
  · intro x
    by_cases hx : (x.id == pid) = true <;> simp [hx]
  · intro x hx
    simp [hx]

theorem find?_append_singleton (l : List Msg) (m : Msg) (p : Msg → Bool)
    (h : ∀ x ∈ l, p x = false) (hm : p m = true) :
    (l ++ [m]).find? p = some m := by
  induction l with
  | nil => simp [List.find?, hm]
  | cons x xs ih =>
    have hx := h x (by simp)
    rw [List.cons_append, List.find?_cons_of_neg _ (by simp [hx])]
    exact ih (fun y hy => h y (by simp [hy]))

theorem countP_id_append_singleton (st : List Msg) (x : Msg) (pid : String)
    (hprov : ∀ y ∈ st, y.id ≠ pid) (hx : x.id = pid) :
    (st ++ [x]).countP (fun m => m.id == pid) = 1 := by
  rw [List.countP_append]
  have h0 : st.countP (fun m => m.id == pid) = 0 := by
    rw [List.countP_eq_zero]
    intro a ha
    simp [hprov a ha]
  have h1 : ([x] : List Msg).countP (fun m => m.id == pid) = 1 := by
    simp [List.countP_cons, hx]
  rw [h0, h1]

theorem mem_append_singleton_id (st : List Msg) (x : Msg) (pid : String)
    (hprov : ∀ y ∈ st, y.id ≠ pid) :
    ∀ m ∈ st ++ [x], m.id = pid → m = x := by
  intro m hm hid
  rcases List.mem_append.mp hm with h | h
  · exact absurd hid (hprov m h)
  · simpa using h

/-- C3 counterexample: starting from the idle state, a first
`loadMoreMessages` leaves a load in flight (`loading = true`), and a second
`loadMoreMessages` issued while it is still in flight performs a second
network fetch — the claim says the second call performs none. -/
theorem loadMore_second_call_fetches_counterexample :
    (loadMoreMessagesStart loadS0 (some "c1")).loading = true ∧
      (loadMoreMessagesStart (loadMoreMessagesStart loadS0 (some "c1"))
        (some "c1")).fetchesStarted = 2 := by
  decide

/-- C3 amended: there is no single-flight guard.  `loadMessages` checks only
that a conversation id is present; even while a previous load is still in
flight (`loading = true`), a further `loadMoreMessages` call issues another
network fetch. -/
theorem loadMore_no_single_flight (s : HookState) (cid : String)
    (h : s.loading = true) :
    (loadMoreMessagesStart s (some cid)).fetchesStarted
      = s.fetchesStarted + 1 := by
  rfl

/-- Witness for C3's amended statement: the second call on a state with a
load in flight fetches again. -/
theorem loadMore_no_single_flight_witness :
    (loadMoreMessagesStart loadS0 (some "c1")).loading = true ∧
      (loadMoreMessagesStart (loadMoreMessagesStart loadS0 (some "c1"))
          (some "c1")).fetchesStarted
        = (loadMoreMessagesStart loadS0 (some "c1")).fetchesStarted + 1 :=
  ⟨by decide,
    loadMore_no_single_flight (loadMoreMessagesStart loadS0 (some "c1")) "c1"
      (by decide)⟩

/-- C7 counterexample: a successful fetch that returns two messages against
`limit = 1` sets `hasMore = true` although the returned count does not equal
the requested page size — the code tests `length >= limit`, not equality. -/
theorem hasMore_not_iff_eq_counterexample :
    (loadMessagesRun loadS0 (some "c1") 1 true [mA, mB]).hasMore = true ∧
      ¬(([mA, mB] : List Msg).length = 1) := by
  decide

/-- C7 amended: after every successful `loadMessages` fetch, `hasMore` is
true if and only if the returned count is at least the requested page size,
and for a non-empty page the cursor `oldestMessageId` is set to the id of a
fetched message of minimum timestamp. -/
theorem loadMessages_hasMore_and_cursor (s : HookState) (cid : String)
    (lim : Nat) (reset : Bool) (fetched : List Msg) (hne : fetched ≠ []) :
    ((loadMessagesRun s (some cid) lim reset fetched).hasMore = true ↔
        lim ≤ fetched.length) ∧
      ∃ m ∈ fetched,
        (loadMessagesRun s (some cid) lim reset fetched).oldestMessageId
            = some m.id ∧
          ∀ x ∈ fetched, m.timestamp ≤ x.timestamp := by
  constructor
  · simp [loadMessagesRun, loadMessagesResolve, loadMessagesStart]
  · obtain ⟨m, rest, hsort⟩ : ∃ m rest, sortByTs fetched = m :: rest := by
      cases hs : sortByTs fetched with
      | nil =>
        exfalso
        have hperm := sortByTs_perm fetched
        rw [hs] at hperm
        exact hne (List.perm_nil.mp hperm.symm)
      | cons m rest => exact ⟨m, rest, rfl⟩
    have hmem : m ∈ fetched := by
      rw [← mem_sortByTs, hsort]; simp
    have hmin : ∀ x ∈ fetched, m.timestamp ≤ x.timestamp := by
      intro x hxf
      have hx : x ∈ sortByTs fetched := mem_sortByTs.mpr hxf
      rw [hsort] at hx
      rcases List.mem_cons.mp hx with rfl | hx
      · exact le_refl _
      · have hs := sortByTs_sorted fetched
        rw [hsort] at hs
        exact (List.pairwise_cons.mp hs).1 x hx
    refine ⟨m, hmem, ?_, hmin⟩
    simp [loadMessagesRun, loadMessagesResolve, loadMessagesStart, hsort]

/-- Witness for C7's amended statement at a concrete two-message page with
page size two. -/
theorem loadMessages_hasMore_and_cursor_witness :
    (([mB, mA] : List Msg) ≠ []) ∧
      (((loadMessagesRun loadS0 (some "c1") 2 true [mB, mA]).hasMore = true ↔
          2 ≤ ([mB, mA] : List Msg).length) ∧
        ∃ m ∈ ([mB, mA] : List Msg),
          (loadMessagesRun loadS0 (some "c1") 2 true [mB, mA]).oldestMessageId
              = some m.id ∧
            ∀ x ∈ ([mB, mA] : List Msg), m.timestamp ≤ x.timestamp) :=
  ⟨by decide,
    loadMessages_hasMore_and_cursor loadS0 "c1" 2 true [mB, mA] (by decide)⟩

/-- C6: `deleteMessage` removes the entry optimistically; in production mode
(`isDevelopment = false`) when both the socket emit (socket disconnected) and
the HTTP DELETE fail, the call returns `false` and the id stays absent from
the local list — no automatic restore happens inside the call; only an
explicit `loadMessages(true)` resync replaces the list with server truth. -/
theorem deleteMessage_optimistic_no_restore (st : List Msg) (cid : String)
    (messageId : String) (s : HookState) (lim : Nat) (fetched : List Msg) :
    deleteMessageRun st (some cid) messageId false false false
        = (false, st.filter (fun msg => !(msg.id == messageId))) ∧
      (∀ m ∈ (deleteMessageRun st (some cid) messageId false false false).2,
        m.id ≠ messageId) ∧
      (loadMessagesRun s (some cid) lim true fetched).messages
        = sortByTs fetched := by
  refine ⟨rfl, ?_, ?_⟩
  · intro m hm
    have hp := (List.mem_filter.mp hm).2
    simpa using hp
  · simp [loadMessagesRun, loadMessagesResolve, loadMessagesStart]

/-- C8: every `sendTypingStatus` call on a state satisfying the timer
invariant leaves exactly one pending `stopTyping` timer, scheduled
`typingStopDelayMs` (3000 ms) after the call, preserves the invariant (so at
most one stop timer is ever pending across any sequence of calls), and emits
one `typing` event through the socket whenever the transport is connected. -/
theorem sendTypingStatus_single_timer (s : TypingState) (cid : String)
    (socketConnected : Bool) (freshTimerId : Nat) (now : Nat)
    (hinv : TimerInv s) :
    (sendTypingStatusRun s (some cid) socketConnected freshTimerId now).activeStopTimers
        = [(freshTimerId, now + typingStopDelayMs)] ∧
      TimerInv (sendTypingStatusRun s (some cid) socketConnected freshTimerId now) ∧
      (socketConnected = true →
        (sendTypingStatusRun s (some cid) socketConnected freshTimerId now).typingEmits
          = s.typingEmits + 1) := by
  have hact :
      (sendTypingStatusRun s (some cid) socketConnected freshTimerId now).activeStopTimers
        = [(freshTimerId, now + typingStopDelayMs)] := by
    cases htimer : s.typingTimer with
    | none =>
      have hempty : s.activeStopTimers = [] := by
        have := hinv
        rw [TimerInv, htimer] at this
        exact this
      simp [sendTypingStatusRun, htimer, hempty]
    | some t =>
      have hone : ∃ fireAt, s.activeStopTimers = [(t, fireAt)] := by
        have := hinv
        rw [TimerInv, htimer] at this
        exact this
      rcases hone with ⟨fireAt, hone⟩
      simp [sendTypingStatusRun, htimer, hone]
  refine ⟨hact, ?_, ?_⟩
  · rw [TimerInv]
    cases s.typingTimer <;> exact ⟨now + typingStopDelayMs, hact⟩
  · intro hconn
    cases s.typingTimer <;> simp [sendTypingStatusRun, hconn]

/-- Witness for C8 at a concrete state holding one pending stop timer. -/
theorem sendTypingStatus_single_timer_witness :
    TimerInv ⟨some 5, [(5, 42)], 7⟩ ∧
      (sendTypingStatusRun ⟨some 5, [(5, 42)], 7⟩ (some "c1") true 6 1000).activeStopTimers
          = [(6, 1000 + typingStopDelayMs)] ∧
        TimerInv (sendTypingStatusRun ⟨some 5, [(5, 42)], 7⟩ (some "c1") true 6 1000) ∧
        (true = true →
          (sendTypingStatusRun ⟨some 5, [(5, 42)], 7⟩ (some "c1") true 6 1000).typingEmits
            = 7 + 1) :=
  ⟨⟨42, rfl⟩,
    sendTypingStatus_single_timer ⟨some 5, [(5, 42)], 7⟩ "c1" true 6 1000
      ⟨42, rfl⟩⟩

/-- C9: a `sendMessage` call whose content is `null`, not a string, empty,
or whitespace-only returns `null` and leaves the message list unchanged: no
optimistic entry is inserted and no delivery is attempted. -/
theorem sendMessage_invalid_content_noop (st : List Msg)
    (chatId : Option String) (content : JSVal) (provId : String) (nowTs : Nat)
    (senderId : String) (socketConnected : Bool) (apiResult : Option Msg)
    (isDevelopment : Bool) (h : jsContentOk content = false) :
    sendMessageRun st chatId content provId nowTs senderId socketConnected
      apiResult isDevelopment = ⟨none, st⟩ := by
  cases chatId with
  | none => rfl
  | some cid => simp [sendMessageRun, h]

/-- Witness for C9 at a whitespace-only string content. -/
theorem sendMessage_invalid_content_noop_witness :
    jsContentOk (JSVal.str "   ") = false ∧
      sendMessageRun [mA] (some "c1") (JSVal.str "   ") "m999" 500 "u1" true
        none false = ⟨none, [mA]⟩ :=
  ⟨by decide,
    sendMessage_invalid_content_noop [mA] (some "c1") (JSVal.str "   ") "m999"
      500 "u1" true none false (by decide)⟩

/-- C1: a `sendMessage` with valid content, sent while the transport is
connected, whose request/response path succeeds with server message `srv`,
leaves exactly one entry for that send in the list: it carries the server id
with status `sent`, the provisional id is gone, and nothing is left in
status `sending`; the call returns the confirmed message. -/
theorem sendMessage_success_replaces_provisional (st : List Msg)
    (cid : String) (content : JSVal) (provId : String) (nowTs : Nat)
    (senderId : String) (srv : Msg) (isDev : Bool)
    (hcontent : jsContentOk content = true)
    (hprov : ∀ x ∈ st, x.id ≠ provId)
    (hsrv : ∀ x ∈ st, x.id ≠ srv.id)
    (hne : srv.id ≠ provId) :
    (sendMessageRun st (some cid) content provId nowTs senderId true
        (some srv) isDev).messages = st ++ [{ srv with status := .sent }] ∧
      (sendMessageRun st (some cid) content provId nowTs senderId true
          (some srv) isDev).messages.countP
          (fun m => m.id == srv.id || m.id == provId) = 1 ∧
      (∀ m ∈ (sendMessageRun st (some cid) content provId nowTs senderId true
          (some srv) isDev).messages, m.id = srv.id → m.status = .sent) ∧
      (∀ m ∈ (sendMessageRun st (some cid) content provId nowTs senderId true
          (some srv) isDev).messages, m.id ≠ provId) ∧
      (sendMessageRun st (some cid) content provId nowTs senderId true
          (some srv) isDev).ret = some { srv with status := .sent } := by
  have hmap : (st ++ [provisionalMsg cid content provId nowTs senderId]).map
        (fun msg => if msg.id == provId then { srv with status := .sent }
          else msg)
      = st ++ [{ srv with status := .sent }] := by
    have hbase := map_g_append st (provisionalMsg cid content provId nowTs senderId)
      (fun msg => if msg.id == provId then { srv with status := .sent } else msg)
      (fun x hx => by simp [hprov x hx])
    rw [hbase]
    simp [provisionalMsg]
  have hmsgs : (sendMessageRun st (some cid) content provId nowTs senderId true
      (some srv) isDev).messages = st ++ [{ srv with status := .sent }] := by
    simp only [sendMessageRun, hcontent, if_true]
    exact hmap
  refine ⟨hmsgs, ?_, ?_, ?_, ?_⟩
  · rw [hmsgs, List.countP_append]
    have h0 : st.countP (fun m => m.id == srv.id || m.id == provId) = 0 := by
      rw [List.countP_eq_zero]
      intro a ha
      simp [hsrv a ha, hprov a ha]
    have h1 : ([{ srv with status := MsgStatus.sent }] : List Msg).countP
        (fun m => m.id == srv.id || m.id == provId) = 1 := by
      simp [List.countP_cons]
    rw [h0, h1]
  · rw [hmsgs]
    intro m hm hid
    rcases List.mem_append.mp hm with h | h
    · exact absurd hid (hsrv m h)
    · rw [List.mem_singleton.mp h]
  · rw [hmsgs]
    intro m hm
    rcases List.mem_append.mp hm with h | h
    · exact hprov m h
    · rw [List.mem_singleton.mp h]
      exact hne
  · simp [sendMessageRun, hcontent]

/-- Witness for C1: one prior message, a fresh provisional id, a fresh
server id. -/
theorem sendMessage_success_replaces_provisional_witness :
    jsContentOk (JSVal.str " hello there ") = true ∧
      (sendMessageRun [mA] (some "c1") (JSVal.str " hello there ") "m999" 350
          "u1" true (some srvMsg) false).messages
        = [mA] ++ [{ srvMsg with status := .sent }] ∧
      (sendMessageRun [mA] (some "c1") (JSVal.str " hello there ") "m999" 350
          "u1" true (some srvMsg) false).messages.countP
          (fun m => m.id == srvMsg.id || m.id == "m999") = 1 ∧
      (sendMessageRun [mA] (some "c1") (JSVal.str " hello there ") "m999" 350
          "u1" true (some srvMsg) false).ret
        = some { srvMsg with status := .sent } := by
  have hmain := sendMessage_success_replaces_provisional [mA] "c1"
    (JSVal.str " hello there ") "m999" 350 "u1" srvMsg false
    (by decide)
    (by intro x hx; rcases List.mem_singleton.mp hx with rfl; decide)
    (by intro x hx; rcases List.mem_singleton.mp hx with rfl; decide)
    (by decide)
  exact ⟨by decide, hmain.1, hmain.2.1, hmain.2.2.2.2⟩

theorem retryMessageRun_spec (st : List Msg) (cid : String) (provId : String)
    (socket2 : Bool) (api2 : Option Msg) (isDev : Bool) (fm : Msg)
    (hfmId : fm.id = provId) (hfmSt : fm.status = .failed)
    (hprov : ∀ x ∈ st, x.id ≠ provId) :
    retryMessageRun (st ++ [fm]) (some cid) provId socket2 api2 isDev
      = ⟨socket2 || api2.isSome || (!socket2 && isDev),
          st ++ [{ fm with status := .sending }],
          st ++ [{ fm with status :=
            if socket2 || api2.isSome || (!socket2 && isDev) then .sent
            else .failed }]⟩ := by
  have hfind : (st ++ [fm]).find?
      (fun msg => msg.id == provId && msg.status == MsgStatus.failed)
      = some fm := by
    refine find?_append_singleton st fm _ ?_ ?_
    · intro x hx
      simp [hprov x hx]
    · simp [hfmId, hfmSt]
  have hint := setStatusById_append st fm provId MsgStatus.sending hprov hfmId
  have hsent := setStatusById_append st
    ({ fm with status := MsgStatus.sending } : Msg) provId MsgStatus.sent
    hprov (by simp [hfmId])
  have hfail := setStatusById_append st
    ({ fm with status := MsgStatus.sending } : Msg) provId MsgStatus.failed
    hprov (by simp [hfmId])
  cases api2 with
  | none =>
    cases socket2 with
    | false =>
      cases isDev with
      | false => simp [retryMessageRun, hfind, hint, hfail]
      | true => simp [retryMessageRun, hfind, hint, hsent]
    | true => simp [retryMessageRun, hfind, hint, hsent]
  | some srv => simp [retryMessageRun, hfind, hint, hsent]

/-- C5: in production mode, a send whose socket and request/response paths
both fail leaves exactly one entry for that send, in status `failed`; a
subsequent `retryMessage` on that id moves that same single entry through
`sending` and then to `sent` (when either channel succeeds) or back to
`failed` (when both fail again), never duplicating it. -/
theorem send_fail_retry_single_entry (st : List Msg) (cid : String)
    (content : JSVal) (provId : String) (nowTs : Nat) (senderId : String)
    (socket2 : Bool) (api2 : Option Msg)
    (hcontent : jsContentOk content = true)
    (hprov : ∀ x ∈ st, x.id ≠ provId) :
    sendMessageRun st (some cid) content provId nowTs senderId false none false
        = ⟨none, st ++ [{ provisionalMsg cid content provId nowTs senderId with
            status := .failed }]⟩ ∧
      (st ++ [({ provisionalMsg cid content provId nowTs senderId with
          status := .failed } : Msg)]).countP (fun m => m.id == provId) = 1 ∧
      retryMessageRun
          (st ++ [{ provisionalMsg cid content provId nowTs senderId with
            status := .failed }]) (some cid) provId socket2 api2 false
        = ⟨socket2 || api2.isSome,
            st ++ [{ provisionalMsg cid content provId nowTs senderId with
              status := .sending }],
            st ++ [{ provisionalMsg cid content provId nowTs senderId with
              status := if socket2 || api2.isSome then .sent else .failed }]⟩ ∧
      (st ++ [({ provisionalMsg cid content provId nowTs senderId with
          status := if socket2 || api2.isSome then .sent else .failed }
            : Msg)]).countP
          (fun m => m.id == provId) = 1 := by
  have hsend : sendMessageRun st (some cid) content provId nowTs senderId
      false none false
      = ⟨none, st ++ [{ provisionalMsg cid content provId nowTs senderId with
          status := .failed }]⟩ := by
    have hupd := setStatusById_append st
      (provisionalMsg cid content provId nowTs senderId) provId
      MsgStatus.failed hprov (by simp [provisionalMsg])
    simp [sendMessageRun, hcontent, hupd]
  have hretry := retryMessageRun_spec st cid provId socket2 api2 false
    { provisionalMsg cid content provId nowTs senderId with
      status := .failed } (by simp [provisionalMsg]) rfl hprov
  have hcount1 := countP_id_append_singleton st
    { provisionalMsg cid content provId nowTs senderId with status := .failed }
    provId hprov (by simp [provisionalMsg])
  have hcount2 := countP_id_append_singleton st
    { provisionalMsg cid content provId nowTs senderId with
      status := if socket2 || api2.isSome then .sent else .failed }
    provId hprov (by simp [provisionalMsg])
  refine ⟨hsend, hcount1, ?_, hcount2⟩
  simpa using hretry

/-- Witness for C5: a production send with both channels down, then a retry
that succeeds over the socket. -/
theorem send_fail_retry_single_entry_witness :
    jsContentOk (JSVal.str "try me") = true ∧
      sendMessageRun [mA] (some "c1") (JSVal.str "try me") "m999" 500 "u1"
          false none false
        = ⟨none, [mA] ++ [{ provisionalMsg "c1" (JSVal.str "try me") "m999" 500
            "u1" with status := .failed }]⟩ ∧
      retryMessageRun
          ([mA] ++ [{ provisionalMsg "c1" (JSVal.str "try me") "m999" 500
            "u1" with status := .failed }]) (some "c1") "m999" true none false
        = ⟨true || (none : Option Msg).isSome,
            [mA] ++ [{ provisionalMsg "c1" (JSVal.str "try me") "m999" 500
              "u1" with status := .sending }],
            [mA] ++ [{ provisionalMsg "c1" (JSVal.str "try me") "m999" 500
              "u1" with status :=
                if true || (none : Option Msg).isSome then .sent
                else .failed }]⟩ := by
  have hmain := send_fail_retry_single_entry [mA] "c1" (JSVal.str "try me")
    "m999" 500 "u1" true none (by decide)
    (by intro x hx; rcases List.mem_singleton.mp hx with rfl; decide)
  exact ⟨by decide, hmain.1, hmain.2.2.1⟩

/-- C10: a successful `retryMessage` keeps the retried entry's id: whatever
message the server returned for the retry POST (its body is never read, only
`response.ok`), the list's ids are unchanged and the entry with the
provisional id is simply marked `sent`. -/
theorem retryMessage_keeps_provisional_id (st : List Msg) (cid : String)
    (provId : String) (socket2 : Bool) (srv : Msg) (isDev : Bool) (fm : Msg)
    (hfind : st.find?
        (fun msg => msg.id == provId && msg.status == MsgStatus.failed)
      = some fm) :
    (retryMessageRun st (some cid) provId socket2 (some srv) isDev).ret
        = true ∧
      (retryMessageRun st (some cid) provId socket2 (some srv) isDev).messages.map
          Msg.id = st.map Msg.id ∧
      ∀ m ∈ (retryMessageRun st (some cid) provId socket2 (some srv)
          isDev).messages, m.id = provId → m.status = .sent := by
  have hmsgs : (retryMessageRun st (some cid) provId socket2 (some srv)
        isDev).messages
      = setStatusById provId MsgStatus.sent
          (setStatusById provId MsgStatus.sending st) := by
    simp [retryMessageRun, hfind]
  refine ⟨by simp [retryMessageRun, hfind], ?_, ?_⟩
  · rw [hmsgs, setStatusById_ids, setStatusById_ids]
  · rw [hmsgs]
    exact setStatusById_status_mem provId MsgStatus.sent _

/-- Witness for C10: a failed provisional entry retried while the server
answers with a fresh id `srv1`; the local entry keeps id `m777`. -/
theorem retryMessage_keeps_provisional_id_witness :
    ([{ mA with id := "m777", status := MsgStatus.failed }] : List Msg).find?
        (fun msg => msg.id == "m777" && msg.status == MsgStatus.failed)
      = some { mA with id := "m777", status := MsgStatus.failed } ∧
      (retryMessageRun [{ mA with id := "m777", status := MsgStatus.failed }]
          (some "c1") "m777" false (some srvMsg) false).ret = true ∧
      (retryMessageRun [{ mA with id := "m777", status := MsgStatus.failed }]
          (some "c1") "m777" false (some srvMsg) false).messages.map Msg.id
        = [{ mA with id := "m777", status := MsgStatus.failed }].map Msg.id := by
  have hmain := retryMessage_keeps_provisional_id
    [{ mA with id := "m777", status := MsgStatus.failed }] "c1" "m777" false
    srvMsg false { mA with id := "m777", status := MsgStatus.failed }
    (by decide)
  exact ⟨by decide, hmain.1, hmain.2.1⟩

end Whisper
